import Mathlib

/-! Verification development for the traffic-light detector node
(`src/ros/src/tl_detector/tl_detector.py`): a shallow embedding of its
decision pipeline — nearest-waypoint lookup, stop-line resolution,
candidate selection and the per-frame debounce — together with theorems
about its behaviour.  Python floating-point coordinates are modelled as
rationals; a Python exception is modelled as `none` in an `Option` result. -/

namespace TLDetector

/-- Light-state constants from the `styx_msgs/TrafficLight` message
(`RED = 0`, `YELLOW = 1`, `GREEN = 2`, `UNKNOWN = 4`). -/
def RED : Int := 0

def YELLOW : Int := 1

def GREEN : Int := 2

def UNKNOWN : Int := 4

/-- Threshold `STATE_COUNT_THRESHOLD = 3` from `tl_detector.py`. -/
def STATE_COUNT_THRESHOLD : Nat := 3

/-- A 3D position (`geometry_msgs` point), coordinates as rationals. -/
structure Point3 where
  x : ℚ
  y : ℚ
  z : ℚ
deriving DecidableEq, Repr

/-- Squared Euclidean distance between two points.
`scipy.spatial.distance.cdist` computes the Euclidean distance
`√((ax−bx)² + (ay−by)² + (az−bz)²)`; because `Real.sqrt` is strictly
monotone on nonnegatives, taking `argmin` (with first-occurrence
tie-break) over the squared distances gives the same index as over the
Euclidean distances, which keeps the embedding inside `ℚ`.  The
nearest-waypoint theorem below is stated, and proved, for the actual
Euclidean (`Real.sqrt`) distances. -/
def sqDist (a b : Point3) : ℚ :=
  (a.x - b.x) ^ 2 + (a.y - b.y) ^ 2 + (a.z - b.z) ^ 2

/-- The scan performed by `numpy.argmin`: walk the list keeping the first
index attaining the least value seen so far (the best is replaced only on
a strictly smaller value, so the first occurrence of the minimum wins).
`i` is the index of the head of the remaining list, `(bi, bv)` the best
index and value so far. -/
def argminAux : List ℚ → Nat → Nat → ℚ → Nat × ℚ
  | [], _, bi, bv => (bi, bv)
  | v :: rest, i, bi, bv =>
    if v < bv then argminAux rest (i + 1) i v else argminAux rest (i + 1) bi bv

/-- Model of `numpy.argmin` over a list of values: first index of the minimum
(on the empty list `numpy` raises; callers below guard for that). -/
def npArgmin : List ℚ → Nat
  | [] => 0
  | v :: rest => (argminAux rest 1 0 v).1

/-- Invariant of the `argmin` scan: the final best value is no larger than
the initial best and than every element of the remaining list, and the
final best index/value pair is either the initial one or points at an
element of the list that is strictly smaller than the initial best and
than every element before it. -/
theorem argminAux_spec (l : List ℚ) : ∀ (i bi : Nat) (bv : ℚ),
    (argminAux l i bi bv).2 ≤ bv ∧
    (∀ k (hk : k < l.length), (argminAux l i bi bv).2 ≤ l.get ⟨k, hk⟩) ∧
    (((argminAux l i bi bv).1 = bi ∧ (argminAux l i bi bv).2 = bv) ∨
      ∃ k, ∃ hk : k < l.length, (argminAux l i bi bv).1 = i + k ∧
        (argminAux l i bi bv).2 = l.get ⟨k, hk⟩ ∧
        (argminAux l i bi bv).2 < bv ∧
        ∀ m (hm : m < k), (argminAux l i bi bv).2 < l.get ⟨m, Nat.lt_trans hm hk⟩) := by
  induction l with
  | nil =>
    intro i bi bv
    refine ⟨le_refl _, ?_, Or.inl ⟨rfl, rfl⟩⟩
    intro k hk
    exact absurd hk (Nat.not_lt_zero k)
  | cons v rest ih =>
    intro i bi bv
    by_cases hv : v < bv
    · rw [show argminAux (v :: rest) i bi bv = argminAux rest (i + 1) i v by
        rw [argminAux, if_pos hv]]
      obtain ⟨h1, h2, h3⟩ := ih (i + 1) i v
      refine ⟨le_trans h1 (le_of_lt hv), ?_, ?_⟩
      · intro k hk
        match k, hk with
        | 0, _ => exact h1
        | k + 1, hk => exact h2 k (Nat.lt_of_succ_lt_succ hk)
      · rcases h3 with ⟨hbi, hbv⟩ | ⟨k, hk, hik, hval, hlt, hall⟩
        · refine Or.inr ⟨0, Nat.succ_pos _, ?_, hbv, ?_, ?_⟩
          · rw [Nat.add_zero]; exact hbi
          · rw [hbv]; exact hv
          · intro m hm; exact absurd hm (Nat.not_lt_zero m)
        · refine Or.inr ⟨k + 1, Nat.succ_lt_succ hk, by omega, hval, lt_trans hlt hv, ?_⟩
          intro m hm
          match m, hm with
          | 0, _ => exact hlt
          | m + 1, hm => exact hall m (Nat.lt_of_succ_lt_succ hm)
    · rw [show argminAux (v :: rest) i bi bv = argminAux rest (i + 1) bi bv by
        rw [argminAux, if_neg hv]]
      obtain ⟨h1, h2, h3⟩ := ih (i + 1) bi bv
      refine ⟨h1, ?_, ?_⟩
      · intro k hk
        match k, hk with
        | 0, _ => exact le_trans h1 (le_of_not_lt hv)
        | k + 1, hk => exact h2 k (Nat.lt_of_succ_lt_succ hk)
      · rcases h3 with ⟨hbi, hbv⟩ | ⟨k, hk, hik, hval, hlt, hall⟩
        · exact Or.inl ⟨hbi, hbv⟩
        · refine Or.inr ⟨k + 1, Nat.succ_lt_succ hk, by omega, hval, hlt, ?_⟩
          intro m hm
          match m, hm with
          | 0, _ => exact lt_of_lt_of_le hlt (le_of_not_lt hv)
          | m + 1, hm => exact hall m (Nat.lt_of_succ_lt_succ hm)

/-- On a non-empty list, `npArgmin` returns a valid index whose value is a
minimum of the list, and every strictly earlier index holds a strictly
larger value (first-occurrence tie-break). -/
theorem npArgmin_spec (l : List ℚ) (hne : l ≠ []) :
    ∃ h : npArgmin l < l.length,
      (∀ k (hk : k < l.length), l.get ⟨npArgmin l, h⟩ ≤ l.get ⟨k, hk⟩) ∧
      (∀ k (hk : k < l.length), k < npArgmin l → l.get ⟨k, hk⟩ > l.get ⟨npArgmin l, h⟩) := by
  match l, hne with
  | v :: rest, _ =>
    obtain ⟨h1, h2, h3⟩ := argminAux_spec rest 1 0 v
    rcases h3 with ⟨hbi, hbv⟩ | ⟨k, hk, hik, hval, hlt, hall⟩
    · have hnp : npArgmin (v :: rest) = 0 := hbi
      rw [hnp]
      refine ⟨Nat.succ_pos _, ?_, ?_⟩
      · intro j hj
        match j, hj with
        | 0, _ => exact le_refl _
        | j + 1, hj =>
          have := h2 j (Nat.lt_of_succ_lt_succ hj)
          rw [hbv] at this
          exact this
      · intro j hj hj0
        exact absurd hj0 (Nat.not_lt_zero j)
    · have hnp : npArgmin (v :: rest) = k + 1 := by
        show (argminAux rest 1 0 v).1 = k + 1
        omega
      rw [hnp]
      have hbound : k + 1 < (v :: rest).length := Nat.succ_lt_succ hk
      have hgv : (v :: rest).get ⟨k + 1, hbound⟩ = (argminAux rest 1 0 v).2 := hval.symm
      refine ⟨hbound, ?_, ?_⟩
      · intro j hj
        match j, hj with
        | 0, _ =>
          rw [hgv]
          exact le_of_lt hlt
        | j + 1, hj =>
          rw [hgv]
          exact h2 j (Nat.lt_of_succ_lt_succ hj)
      · intro j hj hjk
        match j, hj with
        | 0, _ =>
          rw [hgv]
          exact hlt
        | j + 1, hj =>
          rw [hgv]
          exact hall j (Nat.lt_of_succ_lt_succ hjk)

/-- Method `get_closest_waypoint` when a path is available and non-empty: builds
the list of distances from the query position to every waypoint
(`cdist`) and takes `numpy.argmin` (see `sqDist` for why the squared
distances give the same index). -/
def get_closest_waypoint (p : Point3) (wps : List Point3) : Nat :=
  npArgmin (wps.map (sqDist p))

theorem sqDist_nonneg (a b : Point3) : 0 ≤ sqDist a b := by
  unfold sqDist
  positivity

theorem length_map_sqDist (p : Point3) (wps : List Point3) :
    (wps.map (sqDist p)).length = wps.length := List.length_map _ _

theorem get_map_sqDist (p : Point3) (wps : List Point3) (k : Nat)
    (hk : k < wps.length) :
    (wps.map (sqDist p)).get ⟨k, by rw [List.length_map]; exact hk⟩ =
      sqDist p (wps.get ⟨k, hk⟩) := by
  simp [List.get_eq_getElem]

/-- C6: on any query point and non-empty path, `get_closest_waypoint`
returns a valid index whose waypoint minimizes the Euclidean distance to
the query point, and any other index attaining the same distance is not
smaller (ties resolve to the lowest index). -/
theorem get_closest_waypoint_minimizes_distance (p : Point3) (wps : List Point3)
    (hne : wps ≠ []) :
    ∃ h : get_closest_waypoint p wps < wps.length,
      (∀ j (hj : j < wps.length),
        Real.sqrt ((sqDist p (wps.get ⟨get_closest_waypoint p wps, h⟩) : ℚ) : ℝ) ≤
          Real.sqrt ((sqDist p (wps.get ⟨j, hj⟩) : ℚ) : ℝ)) ∧
      (∀ j (hj : j < wps.length),
        Real.sqrt ((sqDist p (wps.get ⟨j, hj⟩) : ℚ) : ℝ) =
          Real.sqrt ((sqDist p (wps.get ⟨get_closest_waypoint p wps, h⟩) : ℚ) : ℝ) →
        get_closest_waypoint p wps ≤ j) := by
  have hlne : wps.map (sqDist p) ≠ [] := by
    intro h
    exact hne (List.map_eq_nil_iff.mp h)
  obtain ⟨hb, hmin, hties⟩ := npArgmin_spec (wps.map (sqDist p)) hlne
  have hb' : get_closest_waypoint p wps < wps.length := by
    have := hb
    rw [List.length_map] at this
    exact this
  refine ⟨hb', ?_, ?_⟩
  · intro j hj
    have hq : sqDist p (wps.get ⟨get_closest_waypoint p wps, hb'⟩) ≤
        sqDist p (wps.get ⟨j, hj⟩) := by
      have := hmin j (by rw [List.length_map]; exact hj)
      rwa [get_map_sqDist, get_map_sqDist] at this
    exact Real.sqrt_le_sqrt (by exact_mod_cast hq)
  · intro j hj heq
    by_contra hcon
    have hjlt : j < get_closest_waypoint p wps := Nat.lt_of_not_le hcon
    have hstrict : sqDist p (wps.get ⟨j, hj⟩) >
        sqDist p (wps.get ⟨get_closest_waypoint p wps, hb'⟩) := by
      have := hties j (by rw [List.length_map]; exact hj) hjlt
      rwa [get_map_sqDist, get_map_sqDist] at this
    have heq' : sqDist p (wps.get ⟨j, hj⟩) =
        sqDist p (wps.get ⟨get_closest_waypoint p wps, hb'⟩) := by
      have h1 : (0 : ℝ) ≤ ((sqDist p (wps.get ⟨j, hj⟩) : ℚ) : ℝ) := by
        exact_mod_cast sqDist_nonneg p _
      have h2 : (0 : ℝ) ≤
          ((sqDist p (wps.get ⟨get_closest_waypoint p wps, hb'⟩) : ℚ) : ℝ) := by
        exact_mod_cast sqDist_nonneg p _
      have := (Real.sqrt_inj h1 h2).mp heq
      exact_mod_cast this
    rw [heq'] at hstrict
    exact lt_irrefl _ hstrict

/-- C6 witness: a concrete query and path on which the nearest-waypoint
theorem applies (path `[(3,0,0), (1,0,0)]`, query at the origin). -/
theorem get_closest_waypoint_minimizes_distance_witness :
    ([⟨3, 0, 0⟩, ⟨1, 0, 0⟩] : List Point3) ≠ [] ∧
    (∃ h : get_closest_waypoint ⟨0, 0, 0⟩ [⟨3, 0, 0⟩, ⟨1, 0, 0⟩] <
        ([⟨3, 0, 0⟩, ⟨1, 0, 0⟩] : List Point3).length,
      (∀ j (hj : j < ([⟨3, 0, 0⟩, ⟨1, 0, 0⟩] : List Point3).length),
        Real.sqrt ((sqDist ⟨0, 0, 0⟩
            (([⟨3, 0, 0⟩, ⟨1, 0, 0⟩] : List Point3).get
              ⟨get_closest_waypoint ⟨0, 0, 0⟩ [⟨3, 0, 0⟩, ⟨1, 0, 0⟩], h⟩) : ℚ) : ℝ) ≤
          Real.sqrt ((sqDist ⟨0, 0, 0⟩
            (([⟨3, 0, 0⟩, ⟨1, 0, 0⟩] : List Point3).get ⟨j, hj⟩) : ℚ) : ℝ)) ∧
      (∀ j (hj : j < ([⟨3, 0, 0⟩, ⟨1, 0, 0⟩] : List Point3).length),
        Real.sqrt ((sqDist ⟨0, 0, 0⟩
            (([⟨3, 0, 0⟩, ⟨1, 0, 0⟩] : List Point3).get ⟨j, hj⟩) : ℚ) : ℝ) =
          Real.sqrt ((sqDist ⟨0, 0, 0⟩
            (([⟨3, 0, 0⟩, ⟨1, 0, 0⟩] : List Point3).get
              ⟨get_closest_waypoint ⟨0, 0, 0⟩ [⟨3, 0, 0⟩, ⟨1, 0, 0⟩], h⟩) : ℚ) : ℝ) →
        get_closest_waypoint ⟨0, 0, 0⟩ [⟨3, 0, 0⟩, ⟨1, 0, 0⟩] ≤ j)) :=
  ⟨by simp, get_closest_waypoint_minimizes_distance ⟨0, 0, 0⟩ _ (by simp)⟩

/-- The full `get_closest_waypoint` method, including its failure modes:
if `self.waypoints is None` the method only logs and then executes
`return nearest_index` with `nearest_index` unbound, raising
`UnboundLocalError`; if the waypoint list is empty, `argmin` over an
empty array raises.  A raised exception is modelled as `none`. -/
def get_closest_waypointOpt (p : Point3) (wps : Option (List Point3)) : Option Nat :=
  match wps with
  | none => none
  | some [] => none
  | some l => some (get_closest_waypoint p l)

/-- Method `get_closest_stoplight_waypoint`: wraps the stop-line 2D position into
a pose with `z = 0` and looks up its nearest waypoint. -/
def get_closest_stoplight_waypoint (slp : ℚ × ℚ) (wps : Option (List Point3)) :
    Option Nat :=
  get_closest_waypointOpt ⟨slp.1, slp.2, 0⟩ wps

/-- The mutable fields of `TLDetector` read by `process_traffic_lights`:
the latest pose and path (either possibly not yet received), the
configured stop-line positions, the accumulated `self.stop_lines` list,
and `self.has_image`. -/
structure DetectorState where
  pose : Option Point3
  waypoints : Option (List Point3)
  stop_line_positions : List (ℚ × ℚ)
  stop_lines : List Nat
  has_image : Bool
deriving DecidableEq, Repr

/-- The value returned by Python's `get_light_state`: either the literal
`False` (returned when `self.has_image` is false) or an integer light
state from the classifier. -/
inductive PyLightState where
  | pyFalse
  | pyInt (n : Int)
deriving DecidableEq, Repr

/-- Numeric value of a `get_light_state` result under Python's `bool`/`int`
unification: `False == 0` (which is `TrafficLight.RED`). -/
def PyLightState.toInt : PyLightState → Int
  | .pyFalse => 0
  | .pyInt n => n

/-- Method `get_light_state`: returns `False` when no image is available,
otherwise the classifier's answer for the current frame (the classifier
is an external oracle; its per-frame answer is the parameter
`classify`). -/
def get_light_state (has_image : Bool) (classify : Int) : PyLightState :=
  if has_image then .pyInt classify else .pyFalse

/-- The scan over `self.stop_lines` in `process_traffic_lights`: with
`min_idx_dist = 150` fixed, find the first entry `sl` (with its
enumeration index `i`) such that `0 < sl - car_position < 150`, breaking
at the first match.  `min_idx_dist` is only reassigned on the iteration
that breaks, so every comparison uses the bound `150`. -/
def findCandidateAux : List Nat → Nat → Nat → Option (Nat × Nat)
  | [], _, _ => none
  | sl :: rest, car, i =>
    if car < sl ∧ sl < car + 150 then some (i, sl)
    else findCandidateAux rest car (i + 1)

/-- The candidate-selection loop of `process_traffic_lights`, started at
enumeration index 0. -/
def findCandidate (sls : List Nat) (car : Nat) : Option (Nat × Nat) :=
  findCandidateAux sls car 0

/-- The list comprehension
`[closest_waypoint_fn(p) for p in stop_line_positions]`: evaluates the
per-element lookup left to right; the first raised exception aborts the
whole comprehension. -/
def listComp {α β : Type} (f : α → Option β) : List α → Option (List β)
  | [] => some []
  | a :: t =>
    match f a with
    | none => none
    | some b =>
      match listComp f t with
      | none => none
      | some bs => some (b :: bs)

/-- One call of `process_traffic_lights` on the current detector state,
with `classify` the classifier's answer for this frame.  Returns `none`
when the Python raises (the `UnboundLocalError` / empty-`argmin` failure
modes of `get_closest_waypoint`), and otherwise the returned
`(light_wp, state)` pair, a flag recording whether the image classifier
was invoked, and the updated detector state (`self.stop_lines` is
extended with the freshly resolved waypoints before the pose check). -/
def process_traffic_lights (st : DetectorState) (classify : Int) :
    Option ((Int × Int) × Bool × DetectorState) :=
  match listComp
      (fun slp => get_closest_stoplight_waypoint slp st.waypoints)
      st.stop_line_positions with
  | none => none
  | some cws =>
    let st1 : DetectorState := { st with stop_lines := st.stop_lines ++ cws }
    match st.pose with
    | none => some ((-1, UNKNOWN), false, st1)
    | some p =>
      match get_closest_waypointOpt p st.waypoints with
      | none => none
      | some car =>
        match findCandidate st1.stop_lines car with
        | some (_, w) =>
          some (((w : Int), (get_light_state st.has_image classify).toInt),
            st.has_image, st1)
        | none => some ((-1, UNKNOWN), false, st1)

/-- The debounce state owned by `image_cb`: `self.state`,
`self.state_count`, `self.last_state`, `self.last_wp`. -/
structure DebounceState where
  state : Int
  state_count : Nat
  last_state : Int
  last_wp : Int
deriving DecidableEq, Repr

/-- The startup values set in `__init__`:
`state = UNKNOWN`, `state_count = 0`, `last_state = UNKNOWN`,
`last_wp = -1`. -/
def initialDebounce : DebounceState :=
  { state := UNKNOWN, state_count := 0, last_state := UNKNOWN, last_wp := -1 }

/-- The debounce block of `image_cb`, given the `(light_wp, state)` pair
returned by `process_traffic_lights`: on a raw-state change, reset the
counter and adopt the new state without publishing; at or above the
threshold, commit (`last_wp` becomes `light_wp` for RED/YELLOW, else
`-1`) and publish the committed value; otherwise re-publish `last_wp`.
The counter is incremented after the branch (`self.state_count += 1`).
The second component is the value passed to `publish`, `none` when no
publish call is executed on this frame. -/
def image_cb_step (s : DebounceState) (light_wp state : Int) :
    DebounceState × Option Int :=
  if s.state ≠ state then
    ({ s with state := state, state_count := 1 }, none)
  else if STATE_COUNT_THRESHOLD ≤ s.state_count then
    let lw := if state = RED ∨ state = YELLOW then light_wp else -1
    let s2 : DebounceState :=
      { s with last_state := s.state, last_wp := lw, state_count := s.state_count + 1 }
    (s2, some lw)
  else
    ({ s with state_count := s.state_count + 1 }, some s.last_wp)

/-- Run the debounce over a sequence of frames, each contributing a
`(light_wp, state)` pair; collects the per-frame published values. -/
def runFrames (s : DebounceState) : List (Int × Int) → DebounceState × List (Option Int)
  | [] => (s, [])
  | (w, st) :: rest =>
    let r := image_cb_step s w st
    let r2 := runFrames r.1 rest
    (r2.1, r.2 :: r2.2)

/-- One full `image_cb` invocation: sets `self.has_image = True`, runs
`process_traffic_lights` (whose exception, if any, propagates out of the
callback — modelled as `none`), then the debounce block.  On success
returns the updated detector and debounce states and the published
value, if any. -/
def image_cb (st : DetectorState) (ds : DebounceState) (classify : Int) :
    Option (DetectorState × DebounceState × Option Int) :=
  match process_traffic_lights { st with has_image := true } classify with
  | none => none
  | some ((light_wp, state), _, st1) =>
    let r := image_cb_step ds light_wp state
    some (st1, r.1, r.2)

/-- Once the tracked state matches the frames and the counter is at or
above the threshold, every further identical frame recommits: it
publishes the committed value and leaves `last_wp` equal to it. -/
theorem runFrames_committed (w st : Int) : ∀ (m : Nat) (s : DebounceState),
    s.state = st → STATE_COUNT_THRESHOLD ≤ s.state_count → 1 ≤ m →
    (runFrames s (List.replicate m (w, st))).2 =
      List.replicate m (some (if st = RED ∨ st = YELLOW then w else -1)) ∧
    (runFrames s (List.replicate m (w, st))).1.last_wp =
      (if st = RED ∨ st = YELLOW then w else -1) := by
  intro m
  induction m with
  | zero => intro s _ _ hm; exact absurd hm (by omega)
  | succ m ih =>
    intro s hs hc _
    have hstep : image_cb_step s w st =
        ({ state := st, state_count := s.state_count + 1, last_state := st, last_wp := if st = RED ∨ st = YELLOW then w else -1 }, some (if st = RED ∨ st = YELLOW then w else -1)) := by
      simp [image_cb_step, hs, hc]
    rcases Nat.eq_zero_or_pos m with hm0 | hm1
    · subst hm0
      simp [List.replicate_succ, runFrames, hstep]
    · have hrec := ih { state := st, state_count := s.state_count + 1, last_state := st, last_wp := if st = RED ∨ st = YELLOW then w else -1 } rfl (le_trans hc (Nat.le_succ _)) hm1
      simp only [List.replicate_succ, runFrames, hstep]
      exact ⟨by rw [hrec.1], hrec.2⟩

/-- C1 (amended): for a run of `n ≥ 4` frames carrying the same raw state
`st`, starting from a tracked state different from `st`, the debounce
publishes nothing on the 1st frame of the run, re-emits the previous
stable value on the 2nd and 3rd frames, and first publishes the newly
committed value (`w` for RED/YELLOW, `-1` otherwise) on the 4th frame;
every later frame of the run recommits and republishes that same value.
(The code increments `state_count` after the `>=` threshold test, so the
commit happens one frame later than the 3rd occurrence the claim
names.) -/
theorem debounce_commits_on_fourth_frame (s0 : DebounceState) (w st : Int) (n : Nat)
    (hdiff : st ≠ s0.state) (hn : 4 ≤ n) :
    (runFrames s0 (List.replicate n (w, st))).2 =
      none :: some s0.last_wp :: some s0.last_wp ::
        List.replicate (n - 3) (some (if st = RED ∨ st = YELLOW then w else -1)) ∧
    (runFrames s0 (List.replicate n (w, st))).1.last_wp =
      (if st = RED ∨ st = YELLOW then w else -1) := by
  obtain ⟨m, rfl⟩ : ∃ m, n = m + 4 := ⟨n - 4, by omega⟩
  have hrep : List.replicate (m + 4) ((w : Int), st) =
      (w, st) :: (w, st) :: (w, st) :: List.replicate (m + 1) (w, st) := by
    rw [show m + 4 = (((m + 1) + 1) + 1) + 1 by omega]
    simp [List.replicate_succ]
  have h1 : image_cb_step s0 w st = ({ s0 with state := st, state_count := 1 }, none) := by
    simp [image_cb_step, Ne.symm hdiff]
  have h2 : image_cb_step { s0 with state := st, state_count := 1 } w st =
      ({ s0 with state := st, state_count := 2 }, some s0.last_wp) := by
    simp [image_cb_step, STATE_COUNT_THRESHOLD]
  have h3 : image_cb_step { s0 with state := st, state_count := 2 } w st =
      ({ s0 with state := st, state_count := 3 }, some s0.last_wp) := by
    simp [image_cb_step, STATE_COUNT_THRESHOLD]
  have hcom := runFrames_committed w st (m + 1) { s0 with state := st, state_count := 3 } rfl (by simp [STATE_COUNT_THRESHOLD]) (by omega)
  rw [show m + 4 - 3 = m + 1 by omega, hrep]
  have hcom1 := hcom.1
  have hcom2 := hcom.2
  simp only [runFrames] at hcom1 hcom2
  simp only [runFrames, h1, h2, h3]
  exact ⟨by rw [hcom1], hcom2⟩

/-- C1 witness: a concrete 5-frame RED run from the startup state, with
candidate waypoint 200: no publish, −1, −1, then 200 on the 4th and 5th
frames. -/
theorem debounce_commits_on_fourth_frame_witness :
    (RED ≠ initialDebounce.state) ∧ 4 ≤ 5 ∧
    ((runFrames initialDebounce (List.replicate 5 (200, RED))).2 =
      none :: some initialDebounce.last_wp :: some initialDebounce.last_wp ::
        List.replicate (5 - 3) (some (if RED = RED ∨ RED = YELLOW then (200 : Int) else -1)) ∧
    (runFrames initialDebounce (List.replicate 5 (200, RED))).1.last_wp =
      (if RED = RED ∨ RED = YELLOW then (200 : Int) else -1)) :=
  ⟨by decide, by decide,
    debounce_commits_on_fourth_frame initialDebounce 200 RED 5 (by decide) (by decide)⟩

/-- C1 counterexample: from the startup state, a run of exactly 3 RED
frames with candidate waypoint 200 publishes `[nothing, -1, -1]`: the
3rd identical occurrence still re-emits the old stable value `-1`, not a
newly committed 200, refuting a commit on the 3rd occurrence. -/
theorem debounce_third_frame_holds_old_value :
    (runFrames initialDebounce (List.replicate 3 (200, RED))).2 =
      [none, some (-1), some (-1)] ∧
    (runFrames initialDebounce (List.replicate 3 (200, RED))).2.getD 2 none ≠ some 200 := by
  constructor <;> decide

/-- C3 counterexample: on a frame whose raw state (RED) differs from the
tracked state (UNKNOWN at startup), `image_cb` executes no publish call
at all — refuting that exactly one integer decision is published for
every incoming frame. -/
theorem state_change_frame_publishes_nothing :
    initialDebounce.state ≠ RED ∧ (image_cb_step initialDebounce 200 RED).2 = none := by
  constructor <;> decide

/-- C3 (amended): a publish happens on a frame exactly when the raw state
equals the tracked state; the published value is then the committed value
when `state_count` has reached the threshold and the held `last_wp`
otherwise.  On a raw-state change no value is published. -/
theorem publish_per_frame_characterization (s : DebounceState) (w st : Int) :
    ((image_cb_step s w st).2 = none ↔ s.state ≠ st) ∧
    (s.state = st → (image_cb_step s w st).2 =
      some (if STATE_COUNT_THRESHOLD ≤ s.state_count then
        (if st = RED ∨ st = YELLOW then w else -1) else s.last_wp)) := by
  by_cases hss : s.state = st
  · refine ⟨?_, fun _ => ?_⟩
    · by_cases hc : STATE_COUNT_THRESHOLD ≤ s.state_count
      · simp [image_cb_step, hss, hc]
      · simp [image_cb_step, hss, hc]
    · by_cases hc : STATE_COUNT_THRESHOLD ≤ s.state_count
      · simp [image_cb_step, hss, hc]
      · simp [image_cb_step, hss, hc]
  · refine ⟨?_, fun h => absurd h hss⟩
    simp [image_cb_step, hss]

/-- C3 witness: at startup an UNKNOWN frame matches the tracked state and
publishes the held value. -/
theorem publish_per_frame_characterization_witness :
    initialDebounce.state = UNKNOWN ∧
    (image_cb_step initialDebounce 200 UNKNOWN).2 =
      some (if STATE_COUNT_THRESHOLD ≤ initialDebounce.state_count then
        (if UNKNOWN = RED ∨ UNKNOWN = YELLOW then (200 : Int) else -1)
      else initialDebounce.last_wp) :=
  ⟨rfl, (publish_per_frame_characterization initialDebounce 200 UNKNOWN).2 rfl⟩

/-- The candidate scan returns `none` exactly when no entry of the list
lies strictly ahead of the car within the 150-index horizon (independent
of the starting enumeration index). -/
theorem findCandidateAux_none_iff (l : List Nat) (car : Nat) : ∀ i,
    findCandidateAux l car i = none ↔ ∀ w ∈ l, ¬(car < w ∧ w < car + 150) := by
  induction l with
  | nil => intro i; simp [findCandidateAux]
  | cons sl rest ih =>
    intro i
    by_cases hq : car < sl ∧ sl < car + 150
    · simp [findCandidateAux, hq]
    · rw [findCandidateAux, if_neg hq, ih (i + 1)]
      constructor
      · intro h w hw
        rcases List.mem_cons.mp hw with rfl | hw'
        exacts [hq, h w hw']
      · intro h w hw
        exact h w (List.mem_cons_of_mem _ hw)

/-- A successful candidate scan returns the first qualifying entry: the
list splits as `pre ++ w :: post` with `w` qualifying, no entry of `pre`
qualifying, and the returned enumeration index pointing at `w`. -/
theorem findCandidateAux_first_match (l : List Nat) (car : Nat) : ∀ (i j w : Nat),
    findCandidateAux l car i = some (j, w) →
    ∃ pre post, l = pre ++ w :: post ∧ i + pre.length = j ∧
      (car < w ∧ w < car + 150) ∧ ∀ u ∈ pre, ¬(car < u ∧ u < car + 150) := by
  induction l with
  | nil => intro i j w h; simp [findCandidateAux] at h
  | cons sl rest ih =>
    intro i j w h
    by_cases hq : car < sl ∧ sl < car + 150
    · rw [findCandidateAux, if_pos hq] at h
      have h' := Option.some.inj h
      cases h'
      exact ⟨[], rest, rfl, by simp, hq, by simp⟩
    · rw [findCandidateAux, if_neg hq] at h
      obtain ⟨pre, post, hl, hlen, hqw, hall⟩ := ih (i + 1) j w h
      refine ⟨sl :: pre, post, by rw [hl]; rfl, ?_, hqw, ?_⟩
      · simp only [List.length_cons]
        omega
      · intro u hu
        rcases List.mem_cons.mp hu with rfl | hu'
        exacts [hq, hall u hu']

/-- Scanning a concatenation first scans the left part; only if it has no
qualifying entry does the scan continue into the right part, with the
enumeration index advanced past the left part. -/
theorem findCandidateAux_append (l1 l2 : List Nat) (car : Nat) : ∀ i,
    findCandidateAux (l1 ++ l2) car i =
      match findCandidateAux l1 car i with
      | some x => some x
      | none => findCandidateAux l2 car (i + l1.length) := by
  induction l1 with
  | nil => intro i; simp [findCandidateAux]
  | cons sl rest ih =>
    intro i
    by_cases hq : car < sl ∧ sl < car + 150
    · simp [findCandidateAux, hq]
    · rw [List.cons_append, findCandidateAux, if_neg hq, ih (i + 1)]
      rcases hfc : findCandidateAux rest car (i + 1) with _ | x
      · have hcons : findCandidateAux (sl :: rest) car i = none := by
          rw [findCandidateAux, if_neg hq]; exact hfc
        simp only [hfc, hcons, List.length_cons]
        rw [show i + 1 + rest.length = i + (rest.length + 1) by omega]
      · have hcons : findCandidateAux (sl :: rest) car i = some x := by
          rw [findCandidateAux, if_neg hq]; exact hfc
        simp only [hfc, hcons]

/-- C7: horizon boundary of the candidate selection.  A stop-line
waypoint at index `car + 149` qualifies and is selected; any selected
waypoint lies strictly ahead of the car and strictly within the
150-index horizon (so `car + 150` or beyond, `car` itself, and anything
behind the car are never selected); and when no accumulated stop-line
waypoint qualifies, `process_traffic_lights` returns the sentinel
`(-1, UNKNOWN)` without invoking the classifier. -/
theorem horizon_boundary_selection :
    (∀ car : Nat, findCandidate [car + 149] car = some (0, car + 149)) ∧
    (∀ (sls : List Nat) (car j w : Nat), findCandidate sls car = some (j, w) →
      car < w ∧ w < car + 150) ∧
    (∀ (st : DetectorState) (classify : Int) (p : Point3) (cws : List Nat) (car : Nat),
      st.pose = some p →
      listComp (fun slp => get_closest_stoplight_waypoint slp st.waypoints)
        st.stop_line_positions = some cws →
      get_closest_waypointOpt p st.waypoints = some car →
      (∀ w ∈ st.stop_lines ++ cws, ¬(car < w ∧ w < car + 150)) →
      process_traffic_lights st classify =
        some ((-1, UNKNOWN), false, { st with stop_lines := st.stop_lines ++ cws })) := by
  refine ⟨?_, ?_, ?_⟩
  · intro car
    rw [findCandidate, findCandidateAux, if_pos ⟨by omega, by omega⟩]
  · intro sls car j w h
    obtain ⟨_, _, _, _, hq, _⟩ := findCandidateAux_first_match sls car 0 j w h
    exact hq
  · intro st classify p cws car hpose hmapM hcar hno
    have hnone : findCandidateAux (st.stop_lines ++ cws) car 0 = none :=
      (findCandidateAux_none_iff _ car 0).mpr hno
    simp only [process_traffic_lights, hmapM, hpose, hcar, findCandidate, hnone]

/-- C7 witness: car at waypoint 0 on a one-point path with one stop line
resolving to waypoint 0 (not strictly ahead): no candidate, sentinel
returned; and the part-1/part-2 horizon facts at `car = 0`. -/
theorem horizon_boundary_selection_witness :
    findCandidate [0 + 149] 0 = some (0, 0 + 149) ∧
    ((0 : Nat) < 0 + 149 ∧ 0 + 149 < 0 + 150) ∧
    process_traffic_lights ⟨some ⟨0, 0, 0⟩, some [⟨0, 0, 0⟩], [(5, 5)], [], true⟩ 0 =
      some ((-1, UNKNOWN), false, ⟨some ⟨0, 0, 0⟩, some [⟨0, 0, 0⟩], [(5, 5)], [0], true⟩) :=
  ⟨horizon_boundary_selection.1 0,
   horizon_boundary_selection.2.1 [0 + 149] 0 0 (0 + 149) (horizon_boundary_selection.1 0),
   horizon_boundary_selection.2.2 ⟨some ⟨0, 0, 0⟩, some [⟨0, 0, 0⟩], [(5, 5)], [], true⟩ 0
     ⟨0, 0, 0⟩ [0] 0 rfl rfl rfl (by decide)⟩

/-- C8: the selection is first-match in configuration-scan order: a
successful `findCandidate` splits the list as `pre ++ w :: post` with no
entry of `pre` qualifying; and it is not necessarily the index-wise
closest qualifying stop line: on `[100, 50]` with the car at 0 both
entries qualify, yet the scan returns waypoint 100 (enumeration index
0), although 50 is strictly closer. -/
theorem first_qualifying_stop_line_selected :
    (∀ (sls : List Nat) (car j w : Nat), findCandidate sls car = some (j, w) →
      ∃ pre post, sls = pre ++ w :: post ∧ pre.length = j ∧
        (car < w ∧ w < car + 150) ∧ ∀ u ∈ pre, ¬(car < u ∧ u < car + 150)) ∧
    (findCandidate [100, 50] 0 = some (0, 100) ∧
      ((0 : Nat) < 50 ∧ (50 : Nat) < 0 + 150) ∧ (50 : Nat) - 0 < 100 - 0) := by
  constructor
  · intro sls car j w h
    obtain ⟨pre, post, hl, hlen, hq, hall⟩ := findCandidateAux_first_match sls car 0 j w h
    exact ⟨pre, post, hl, by omega, hq, hall⟩
  · exact ⟨by decide, by decide, by decide⟩

/-- C8 witness: the first-match characterization applied to the concrete
scan on `[100, 50]` with the car at waypoint 0. -/
theorem first_qualifying_stop_line_selected_witness :
    findCandidate [100, 50] 0 = some (0, 100) ∧
    (∃ pre post, ([100, 50] : List Nat) = pre ++ 100 :: post ∧ pre.length = 0 ∧
      ((0 : Nat) < 100 ∧ (100 : Nat) < 0 + 150) ∧
      ∀ u ∈ pre, ¬((0 : Nat) < u ∧ u < 0 + 150)) :=
  ⟨by decide, first_qualifying_stop_line_selected.1 [100, 50] 0 0 100 (by decide)⟩

/-- C10: the selected candidate (both its enumeration index and its
waypoint) computed from the accumulated stop-line list — `n ≥ 1`
identical copies of the per-frame resolution result `R`, as produced by
re-appending `R` on every frame with path and configuration unchanged —
equals the candidate computed from a single copy of `R`. -/
theorem candidate_invariant_under_accumulation (R : List Nat) (car n : Nat)
    (hn : 1 ≤ n) :
    findCandidate (List.flatten (List.replicate n R)) car = findCandidate R car := by
  induction n with
  | zero => exact absurd hn (by omega)
  | succ n ih =>
    rcases Nat.eq_zero_or_pos n with h0 | hpos
    · subst h0
      simp [List.replicate_succ]
    · have hjoin : List.flatten (List.replicate (n + 1) R) =
          R ++ List.flatten (List.replicate n R) := by
        simp [List.replicate_succ]
      rw [hjoin]
      show findCandidateAux (R ++ List.flatten (List.replicate n R)) car 0 =
        findCandidate R car
      rw [findCandidateAux_append]
      rcases hR : findCandidateAux R car 0 with _ | x
      · simp only [hR]
        rw [show findCandidate R car = none from hR]
        apply (findCandidateAux_none_iff _ car _).mpr
        intro w hw
        rcases List.mem_flatten.mp hw with ⟨l2, hl2, hwl⟩
        rw [List.eq_of_mem_replicate hl2] at hwl
        exact (findCandidateAux_none_iff R car 0).mp hR w hwl
      · simp only [hR]
        rw [findCandidate, hR]

/-- C10 witness: two accumulated copies of the resolution result `[100]`
select the same candidate as a single copy. -/
theorem candidate_invariant_under_accumulation_witness :
    1 ≤ 2 ∧
    findCandidate (List.flatten (List.replicate 2 [100])) 0 = findCandidate [100] 0 :=
  ⟨by decide, candidate_invariant_under_accumulation [100] 0 2 (by decide)⟩

/-- The comprehension succeeds pointwise when every element maps to
`some`. -/
theorem listComp_eq_map {α β : Type} (f : α → Option β) (g : α → β)
    (hf : ∀ a, f a = some (g a)) : ∀ l : List α, listComp f l = some (l.map g) := by
  intro l
  induction l with
  | nil => rfl
  | cons a t ih => simp [listComp, hf a, ih]

/-- On an available non-empty path, the waypoint lookup succeeds and
returns the `argmin` index. -/
theorem get_closest_waypointOpt_some (p : Point3) (wps : List Point3)
    (hne : wps ≠ []) :
    get_closest_waypointOpt p (some wps) = some (get_closest_waypoint p wps) := by
  match wps, hne with
  | w :: t, _ => rfl

/-- C2: with no path snapshot received (`self.waypoints is None`) and at
least one configured stop line, a camera frame makes
`get_closest_waypoint` execute `return nearest_index` with
`nearest_index` never assigned: the `UnboundLocalError` propagates out
of the frame's processing (`none`), and nothing is published — refuting
that the frame completes and publishes the sentinel `-1`. -/
theorem image_cb_no_path_exception :
    image_cb ⟨none, none, [(10, 20)], [], false⟩ initialDebounce 0 = none := by
  rfl

/-- C4: failing input for the once-per-snapshot resolution claim — two
decision cycles on the same path snapshot (one waypoint at the origin)
and the same one-entry configuration: the first call stores `[0]`, the
second call appends the identical resolution again and stores `[0, 0]`,
so the stored mapping has grown to twice the number of configured stop
lines instead of staying at exactly one entry per stop line. -/
theorem stop_lines_grow_on_second_cycle :
    process_traffic_lights ⟨none, some [⟨0, 0, 0⟩], [(1, 1)], [], true⟩ 0 =
      some ((-1, UNKNOWN), false, ⟨none, some [⟨0, 0, 0⟩], [(1, 1)], [0], true⟩) ∧
    process_traffic_lights ⟨none, some [⟨0, 0, 0⟩], [(1, 1)], [0], true⟩ 0 =
      some ((-1, UNKNOWN), false, ⟨none, some [⟨0, 0, 0⟩], [(1, 1)], [0, 0], true⟩) ∧
    ([0, 0] : List Nat) ≠ [0] ∧
    ([0, 0] : List Nat).length ≠ ([(1, 1)] : List (ℚ × ℚ)).length := by
  exact ⟨by decide, by decide, by decide, by decide⟩

/-- C5: when no camera frame is available (`self.has_image` false),
`get_light_state` returns the Python literal `False` — whose integer
value is `0`, i.e. `TrafficLight.RED` — and not the `UNKNOWN`
classification value `4` the spec prescribes. -/
theorem get_light_state_no_image_not_unknown (classify : Int) :
    get_light_state false classify = PyLightState.pyFalse ∧
    (get_light_state false classify).toInt = RED ∧
    (get_light_state false classify).toInt ≠ UNKNOWN := by
  exact ⟨rfl, rfl, show (0 : Int) ≠ 4 by decide⟩

/-- C9 counterexample: pose absent, a (degenerate) path snapshot present
but empty, one stop line configured: resolution calls
`get_closest_waypoint`, whose `argmin` over an empty array raises, so
the frame's processing raises instead of returning `(-1, UNKNOWN)`. -/
theorem no_pose_empty_path_exception :
    process_traffic_lights ⟨none, some [], [(0, 0)], [], true⟩ 0 = none := by
  rfl

/-- C9 (amended): with no pose received and a non-empty path snapshot
present, `process_traffic_lights` returns the sentinel `(-1, UNKNOWN)`
for every classifier behaviour, never invokes the image classifier
(flag `false`), and only extends the accumulated stop-line list. -/
theorem no_pose_returns_sentinel (st : DetectorState) (wps : List Point3)
    (classify : Int) (hpose : st.pose = none) (hwps : st.waypoints = some wps)
    (hne : wps ≠ []) :
    process_traffic_lights st classify =
      some ((-1, UNKNOWN), false, { st with stop_lines := st.stop_lines ++ st.stop_line_positions.map (fun slp => get_closest_waypoint ⟨slp.1, slp.2, 0⟩ wps) }) := by
  have hres : listComp
      (fun slp => get_closest_stoplight_waypoint slp st.waypoints)
      st.stop_line_positions =
      some (st.stop_line_positions.map
        (fun slp => get_closest_waypoint ⟨slp.1, slp.2, 0⟩ wps)) := by
    apply listComp_eq_map
    intro slp
    rw [get_closest_stoplight_waypoint, hwps, get_closest_waypointOpt_some _ _ hne]
  simp only [process_traffic_lights, hres, hpose]

/-- C9 witness: a one-waypoint path, one configured stop line, no pose:
processing returns the sentinel without touching the classifier. -/
theorem no_pose_returns_sentinel_witness :
    (⟨none, some [⟨0, 0, 0⟩], [(1, 1)], [], true⟩ : DetectorState).pose = none ∧
    (⟨none, some [⟨0, 0, 0⟩], [(1, 1)], [], true⟩ : DetectorState).waypoints =
      some [⟨0, 0, 0⟩] ∧
    ([⟨0, 0, 0⟩] : List Point3) ≠ [] ∧
    process_traffic_lights ⟨none, some [⟨0, 0, 0⟩], [(1, 1)], [], true⟩ 7 =
      some ((-1, UNKNOWN), false, ⟨none, some [⟨0, 0, 0⟩], [(1, 1)], [0], true⟩) :=
  ⟨rfl, rfl, by decide,
    no_pose_returns_sentinel ⟨none, some [⟨0, 0, 0⟩], [(1, 1)], [], true⟩
      [⟨0, 0, 0⟩] 7 rfl rfl (by decide)⟩

end TLDetector
